import Mathlib

/-!
Verification development for the subdomain collection engine of the
reconnaissance aggregator (modules `subdomain.py` and `icp_query.py`).

Each Python function that the claims depend on is shallowly embedded as an
executable Lean definition.  External effects (HTTP responses, subprocess
results, file decodings) are passed in as explicit oracle arguments, so the
pure control flow of the source is preserved while the environment is a
parameter.
-/

set_option maxRecDepth 4096

/-! ## Domain validator (`subdomain.py`, `validate_domain`, lines 197-206)

The source checks a candidate against the Python regular expression

  `^(?:[a-zA-Z0-9](?:[a-zA-Z0-9-]{0,61}[a-zA-Z0-9])?\.)+[a-zA-Z]{2,}$`

via `re.match`.  We embed the *language* of that regex: since no label may
contain a dot, a full match is exactly a decomposition of the string at its
dots into one or more leading labels followed by a final alphabetic run.
Python's `$` also matches just before one trailing newline, which we model
faithfully in `validate_domain`. -/

/-- `[a-zA-Z0-9]` of the source regex. -/
def isAlnumC (c : Char) : Bool := c.isAlpha || c.isDigit

/-- `[a-zA-Z0-9-]` of the source regex. -/
def isLabelChar (c : Char) : Bool := isAlnumC c || c == '-'

/-- One non-final label of the source regex:
`[a-zA-Z0-9](?:[a-zA-Z0-9-]{0,61}[a-zA-Z0-9])?`. -/
def labelOK (l : List Char) : Bool :=
  match l with
  | [] => false
  | c :: cs =>
    if cs.isEmpty then isAlnumC c
    else
      isAlnumC c && decide (cs.length ≤ 62) && cs.dropLast.all isLabelChar &&
        (match cs.getLast? with
         | some d => isAlnumC d
         | none => false)

/-- The final run of the source regex: `[a-zA-Z]{2,}`. -/
def tldOK (l : List Char) : Bool :=
  decide (2 ≤ l.length) && l.all Char.isAlpha

/-- Split a character list at every `'.'` (the decomposition a full regex
match induces, since no label of the regex can contain a dot). -/
def splitDot : List Char → List (List Char)
  | [] => [[]]
  | c :: cs =>
    if c = '.' then [] :: splitDot cs
    else
      match splitDot cs with
      | [] => [[c]]
      | p :: ps => (c :: p) :: ps

/-- Inverse of `splitDot`: re-join parts with `'.'` separators. -/
def joinDots : List (List Char) → List Char
  | [] => []
  | [p] => p
  | p :: ps => p ++ '.' :: joinDots ps

/-- Full-match test for the body of the regex (without the `$`-newline rule). -/
def validateCore (cs : List Char) : Bool :=
  let ps := splitDot cs
  decide (2 ≤ ps.length) && ps.dropLast.all labelOK &&
    (match ps.getLast? with
     | some t => tldOK t
     | none => false)

/-- `validate_domain` (`subdomain.py` lines 197-206): `re.match` of the anchored
regex, where Python's `$` also accepts a single trailing newline. -/
def validate_domain (s : String) : Bool :=
  validateCore s.data ||
    (match s.data.getLast? with
     | some c => (c == '\n') && validateCore s.data.dropLast
     | none => false)

example : validate_domain ("example.com") = true := by decide
example : validate_domain ("a.b-c.example.com") = true := by decide
example : validate_domain ("") = false := by decide
example : validate_domain (".example.com") = false := by decide
example : validate_domain ("example.com.") = false := by decide
example : validate_domain ("a..com") = false := by decide
example : validate_domain ("a.c0m") = false := by decide
example : validate_domain ("a.co") = true := by decide
example : validate_domain ("a.c") = false := by decide
example : validate_domain ("example.com\n") = true := by decide
example : validate_domain ("-a.com") = false := by decide

/-! Spec-side hostname grammar, written from the specification's words
(`spec.md` section 4.1): `^(label\.)+label$` with
`label = [A-Za-z0-9]([A-Za-z0-9-]{0,61}[A-Za-z0-9])?` and a final label that
is alphabetic of length at least 2.  It is deliberately phrased as an
existential decomposition, independent of the `splitDot` mechanism used by
the embedding of the source regex. -/

/-- A label per the specification's grammar. -/
def specLabel (l : List Char) : Prop :=
  (∃ c, isAlnumC c = true ∧ l = [c]) ∨
  (∃ c mid d, isAlnumC c = true ∧ isAlnumC d = true ∧ mid.length ≤ 61 ∧
    (∀ x ∈ mid, isLabelChar x = true) ∧ l = c :: mid ++ [d])

/-- The final (TLD) run per the specification: alphabetic, length at least 2. -/
def specTld (l : List Char) : Prop :=
  2 ≤ l.length ∧ ∀ c ∈ l, c.isAlpha = true

/-- A full hostname per the specification: one or more dot-terminated labels
followed by a final alphabetic run. -/
def specHostCore (cs : List Char) : Prop :=
  ∃ labels tld, labels ≠ [] ∧ (∀ l ∈ labels, specLabel l) ∧ specTld tld ∧
    cs = (labels.map (fun l => l ++ ['.'])).flatten ++ tld

theorem splitDot_ne_nil (cs : List Char) : splitDot cs ≠ [] := by
  induction cs with
  | nil => simp [splitDot]
  | cons c cs ih =>
    simp only [splitDot]
    split
    · simp
    · split
      · simp
      · simp

theorem joinDots_splitDot (cs : List Char) : joinDots (splitDot cs) = cs := by
  induction cs with
  | nil => rfl
  | cons c cs ih =>
    by_cases hc : c = '.'
    · subst hc
      simp only [splitDot, if_pos rfl]
      rcases hps : splitDot cs with _ | ⟨p, ps⟩
      · exact absurd hps (splitDot_ne_nil cs)
      · rw [hps] at ih
        simpa [joinDots] using ih
    · simp only [splitDot, if_neg hc]
      rcases hps : splitDot cs with _ | ⟨p, ps⟩
      · exact absurd hps (splitDot_ne_nil cs)
      · rw [hps] at ih
        rcases ps with _ | ⟨q, qs⟩
        · simpa [joinDots] using ih
        · simpa [joinDots] using ih

theorem splitDot_no_dot (cs : List Char) : ∀ p ∈ splitDot cs, '.' ∉ p := by
  induction cs with
  | nil =>
    intro p hp
    simp only [splitDot, List.mem_singleton] at hp
    subst hp; simp
  | cons c cs ih =>
    intro p hp
    by_cases hc : c = '.'
    · subst hc
      rw [show splitDot ('.' :: cs) = [] :: splitDot cs from rfl] at hp
      rcases List.mem_cons.mp hp with hp | hp
      · subst hp; simp
      · exact ih p hp
    · simp only [splitDot, if_neg hc] at hp
      rcases hps : splitDot cs with _ | ⟨q, qs⟩
      · exact absurd hps (splitDot_ne_nil cs)
      · rw [hps] at hp
        simp only [List.mem_cons] at hp
        rcases hp with rfl | hp
        · intro hmem
          rcases List.mem_cons.mp hmem with h1 | hq
          · exact hc h1.symm
          · exact ih q (by simp [hps]) hq
        · exact ih p (by simp [hps, hp])

theorem splitDot_of_no_dot (p : List Char) (h : '.' ∉ p) : splitDot p = [p] := by
  induction p with
  | nil => rfl
  | cons c cs ih =>
    have hc : ¬ c = '.' := fun hcc => h (by simp [hcc])
    have hcs : '.' ∉ cs := fun hmm => h (List.mem_cons_of_mem _ hmm)
    simp only [splitDot, if_neg hc, ih hcs]

theorem splitDot_append (p rest : List Char) (h : '.' ∉ p) :
    splitDot (p ++ '.' :: rest) = p :: splitDot rest := by
  induction p with
  | nil => simp [splitDot]
  | cons c cs ih =>
    have hc : ¬ c = '.' := fun hcc => h (by simp [hcc])
    have hcs : '.' ∉ cs := fun hmm => h (List.mem_cons_of_mem _ hmm)
    simp only [List.cons_append, splitDot, if_neg hc, List.append_eq, ih hcs]

theorem splitDot_joinDots (qs : List (List Char)) (hne : qs ≠ [])
    (hnd : ∀ p ∈ qs, '.' ∉ p) : splitDot (joinDots qs) = qs := by
  induction qs with
  | nil => exact absurd rfl hne
  | cons p qs ih =>
    rcases qs with _ | ⟨q, qs'⟩
    · simpa [joinDots] using splitDot_of_no_dot p (hnd p (by simp))
    · have h1 : joinDots (p :: q :: qs') = p ++ '.' :: joinDots (q :: qs') := rfl
      rw [h1, splitDot_append _ _ (hnd p (by simp)),
        ih (by simp) (fun r hr => hnd r (List.mem_cons_of_mem _ hr))]

theorem joinDots_concat (ls : List (List Char)) (t : List Char) :
    joinDots (ls ++ [t]) = (ls.map (fun l => l ++ ['.'])).flatten ++ t := by
  induction ls with
  | nil => simp [joinDots]
  | cons l ls ih =>
    rcases ls with _ | ⟨m, ms⟩
    · simp [joinDots]
    · have h1 : joinDots (l :: (m :: ms) ++ [t]) =
        l ++ '.' :: joinDots ((m :: ms) ++ [t]) := rfl
      rw [h1, ih]
      simp [List.append_assoc]

theorem labelOK_eq_of_concat (c : Char) (mid : List Char) (d : Char) :
    labelOK (c :: mid ++ [d]) =
      (isAlnumC c && decide (mid.length + 1 ≤ 62) && mid.all isLabelChar &&
        isAlnumC d) := by
  have hne : (mid ++ [d]).isEmpty = false := by simp
  simp [labelOK, hne, List.dropLast_concat, List.getLast?_concat]

theorem labelOK_iff (l : List Char) : labelOK l = true ↔ specLabel l := by
  constructor
  · intro h
    rcases l with _ | ⟨c, cs⟩
    · simp [labelOK] at h
    · rcases List.eq_nil_or_concat cs with rfl | ⟨mid, d, hcs⟩
      · simp only [labelOK, List.isEmpty_nil, if_true] at h
        exact Or.inl ⟨c, h, rfl⟩
      · rw [List.concat_eq_append] at hcs
        subst hcs
        rw [show c :: (mid ++ [d]) = c :: mid ++ [d] from rfl, labelOK_eq_of_concat] at h
        simp only [Bool.and_eq_true, decide_eq_true_eq, List.all_eq_true] at h
        exact Or.inr ⟨c, mid, d, h.1.1.1, h.2, by omega, h.1.2, rfl⟩
  · intro h
    rcases h with ⟨c, hc, rfl⟩ | ⟨c, mid, d, hc, hd, hlen, hmid, rfl⟩
    · simpa [labelOK] using hc
    · rw [labelOK_eq_of_concat]
      simp only [Bool.and_eq_true, decide_eq_true_eq, List.all_eq_true]
      exact ⟨⟨⟨hc, by omega⟩, hmid⟩, hd⟩

theorem tldOK_iff (l : List Char) : tldOK l = true ↔ specTld l := by
  simp [tldOK, specTld, List.all_eq_true]

theorem specLabel_no_dot {l : List Char} (h : specLabel l) : '.' ∉ l := by
  have halnum : isAlnumC '.' = false := by decide
  have hlc : isLabelChar '.' = false := by decide
  rcases h with ⟨c, hc, rfl⟩ | ⟨c, mid, d, hc, hd, _, hmid, rfl⟩
  · intro hm
    rcases List.mem_singleton.mp hm with rfl
    rw [halnum] at hc; exact Bool.false_ne_true hc
  · intro hm
    rcases List.mem_cons.mp hm with h1 | hm
    · rw [← h1, halnum] at hc; exact Bool.false_ne_true hc
    · rcases List.mem_append.mp hm with hm | hm
      · have := hmid _ hm; rw [hlc] at this; exact Bool.false_ne_true this
      · rcases List.mem_singleton.mp hm with rfl
        rw [halnum] at hd; exact Bool.false_ne_true hd

theorem specTld_no_dot {l : List Char} (h : specTld l) : '.' ∉ l := by
  intro hm
  have := h.2 _ hm
  simp at this

theorem validateCore_iff (cs : List Char) : validateCore cs = true ↔ specHostCore cs := by
  constructor
  · intro h
    simp only [validateCore, Bool.and_eq_true, decide_eq_true_eq, List.all_eq_true] at h
    obtain ⟨⟨hlen, hall⟩, hgl⟩ := h
    rcases hgl2 : (splitDot cs).getLast? with _ | t
    · rw [hgl2] at hgl; exact absurd hgl (by simp)
    · rw [hgl2] at hgl
      obtain ⟨init, hinit⟩ := List.getLast?_eq_some_iff.mp hgl2
      refine ⟨init, t, ?_, ?_, (tldOK_iff t).mp hgl, ?_⟩
      · intro h0
        subst h0
        rw [hinit] at hlen
        simp at hlen
      · intro l hl
        apply (labelOK_iff l).mp
        apply hall
        rw [hinit, List.dropLast_concat]
        exact hl
      · have hjd := joinDots_splitDot cs
        rw [hinit, joinDots_concat] at hjd
        exact hjd.symm
  · rintro ⟨labels, tld, hne, hlab, htld, rfl⟩
    have hjoin : (labels.map (fun l => l ++ ['.'])).flatten ++ tld =
        joinDots (labels ++ [tld]) := (joinDots_concat labels tld).symm
    rw [hjoin]
    have hnd : ∀ p ∈ labels ++ [tld], '.' ∉ p := by
      intro p hp
      rcases List.mem_append.mp hp with hp | hp
      · exact specLabel_no_dot (hlab p hp)
      · rcases List.mem_singleton.mp hp with rfl
        exact specTld_no_dot htld
    have hsplit : splitDot (joinDots (labels ++ [tld])) = labels ++ [tld] :=
      splitDot_joinDots _ (by simp) hnd
    simp only [validateCore, hsplit, List.dropLast_concat, List.getLast?_concat,
      Bool.and_eq_true, decide_eq_true_eq, List.all_eq_true]
    refine ⟨⟨?_, fun l hl => (labelOK_iff l).mpr (hlab l hl)⟩, (tldOK_iff tld).mpr htld⟩
    have hpos := List.length_pos.mpr hne
    simp only [List.length_append, List.length_singleton]
    omega

theorem newline_case (l : List Char) :
    ((match l.getLast? with
      | some c => (c == '\n') && validateCore l.dropLast
      | none => false) = true) ↔ ∃ cs, l = cs ++ ['\n'] ∧ validateCore cs = true := by
  rcases List.eq_nil_or_concat l with rfl | ⟨l', a, hl⟩
  · simp
  · rw [List.concat_eq_append] at hl
    subst hl
    simp only [List.getLast?_concat, List.dropLast_concat, Bool.and_eq_true, beq_iff_eq]
    constructor
    · rintro ⟨rfl, hv⟩
      exact ⟨l', rfl, hv⟩
    · rintro ⟨cs, hcs, hv⟩
      have ha : a = '\n' := by
        have := congrArg List.getLast? hcs
        simpa [List.getLast?_concat] using this
      have hl' : l' = cs := by
        have := congrArg List.dropLast hcs
        simpa [List.dropLast_concat] using this
      subst ha
      subst hl'
      exact ⟨rfl, hv⟩

/-- The concrete input refuting claim C3: a two-character first label followed
by a 64-character alphabetic final label. -/
def c3Input : String := String.mk ('a' :: 'a' :: '.' :: List.replicate 64 'b')

/-- C3 counterexample: `validate_domain` accepts a string whose final
dot-separated label has 64 characters, although the claim states that any
string containing a label exceeding 63 characters is rejected. -/
theorem c3_label_over_63_accepted :
    validate_domain c3Input = true ∧
      (splitDot c3Input.data).any (fun l => decide (63 < l.length)) = true := by
  constructor
  · decide
  · decide

/-- C3 (amended): `validate_domain` returns true exactly when the candidate
(up to one trailing newline, per Python `$` semantics) decomposes as
`(label.)+ tld` with `label = [A-Za-z0-9]([A-Za-z0-9-]{0,61}[A-Za-z0-9])?` and
`tld` alphabetic of length at least 2 with no upper length bound; in
particular it rejects the empty string, leading or trailing dots, empty
labels, non-final labels exceeding 63 characters, and a non-alphabetic or
too-short final label, and it is a pure function. -/
theorem c3_validate_domain_grammar (s : String) :
    validate_domain s = true ↔
      specHostCore s.data ∨ ∃ cs, s.data = cs ++ ['\n'] ∧ specHostCore cs := by
  have h1 : validate_domain s = true ↔
      validateCore s.data = true ∨
        ∃ cs, s.data = cs ++ ['\n'] ∧ validateCore cs = true := by
    unfold validate_domain
    rw [Bool.or_eq_true, newline_case]
  rw [h1, validateCore_iff]
  exact or_congr Iff.rfl
    ⟨fun ⟨cs, h, hv⟩ => ⟨cs, h, (validateCore_iff cs).mp hv⟩,
     fun ⟨cs, h, hv⟩ => ⟨cs, h, (validateCore_iff cs).mpr hv⟩⟩

/-! ## Collection orchestrator (`subdomain.py`, `run`, lines 125-186, and
`save_results_to_excel`, lines 225-247)

The one-key collection path submits each collector as a task, awaits all of
them, stores a task's returned set under its source name and an empty set if
the task raised, and computes the combined result as
`set().union(*[s for s in results.values() if s])`.  A task outcome is
embedded as `Except`: `Except.error` is a collector that raised. -/

/-- The `as_completed` loop of `run` (lines 157-169): each task contributes its
result, and a raising task contributes the empty set. -/
def collectResults (tasks : List (String × Except String (Finset String))) :
    List (String × Finset String) :=
  tasks.map (fun nt => (nt.1, match nt.2 with
    | Except.ok s => s
    | Except.error _ => ∅))

/-- `set().union(*[s for s in results.values() if s])` (lines 174 and 240):
union of the nonempty per-source sets. -/
def combinedResult (results : List (String × Finset String)) : Finset String :=
  ((results.map Prod.snd).filter (fun s => decide (s ≠ ∅))).foldr (· ∪ ·) ∅

/-- `any(domains for domains in results.values())` (lines 172 and 239). -/
def anyNonempty (results : List (String × Finset String)) : Bool :=
  results.any (fun p => decide (p.2 ≠ ∅))

/-- Terminal state of one batch run: either results were saved together with
the combined set, or every collector came back empty (lines 172-186). -/
inductive RunOutcome where
  | saved (perSource : List (String × Finset String)) (combined : Finset String)
  | noneFound (perSource : List (String × Finset String))
deriving DecidableEq

/-- The tail of `run`'s one-key path (lines 151-186): collect all task
outcomes, then either save per-source plus combined results or report that
nothing was found.  Total by construction — no path raises. -/
def orchestrate (tasks : List (String × Except String (Finset String))) : RunOutcome :=
  let rs := collectResults tasks
  if anyNonempty rs then RunOutcome.saved rs (combinedResult rs)
  else RunOutcome.noneFound rs

theorem foldr_union_perm (l1 l2 : List (Finset String)) (h : l1.Perm l2) :
    l1.foldr (· ∪ ·) ∅ = l2.foldr (· ∪ ·) ∅ := by
  induction h with
  | nil => rfl
  | cons x _ ih => simp only [List.foldr_cons, ih]
  | swap x y l => simp only [List.foldr_cons, Finset.union_left_comm]
  | trans _ _ ih1 ih2 => rw [ih1, ih2]

theorem foldr_union_filter (l : List (Finset String)) :
    (l.filter (fun s => decide (s ≠ ∅))).foldr (· ∪ ·) ∅ = l.foldr (· ∪ ·) ∅ := by
  induction l with
  | nil => rfl
  | cons s l ih =>
    by_cases hs : s = ∅
    · rw [List.filter_cons_of_neg, ih, List.foldr_cons, hs, Finset.empty_union]
      simp [hs]
    · rw [List.filter_cons_of_pos, List.foldr_cons, ih, List.foldr_cons]
      exact decide_eq_true hs

/-- The spec's concrete merge scenario: subfinder and crt.sh results. -/
def exampleTasks : List (String × Except String (Finset String)) :=
  [("subfinder", Except.ok {"a.example.com", "b.example.com"}),
   ("crtsh", Except.ok {"b.example.com", "c.example.com"})]

/-- C1: the CombinedResult equals the set union of all per-source sets; the
merge is permutation-invariant (hence commutative in the order of sources) and
idempotent (merging a source's set with itself changes nothing); on the spec's
concrete example the combined set is the three-element union while both
per-source sets are kept intact. -/
theorem c1_combined_union_comm_idem :
    (∀ rs : List (String × Finset String),
        combinedResult rs = (rs.map Prod.snd).foldr (· ∪ ·) ∅)
    ∧ (∀ rs rs' : List (String × Finset String), rs.Perm rs' →
        combinedResult rs = combinedResult rs')
    ∧ (∀ (n : String) (s : Finset String) (rs : List (String × Finset String)),
        combinedResult ((n, s) :: (n, s) :: rs) = combinedResult ((n, s) :: rs))
    ∧ (combinedResult (collectResults exampleTasks) =
        {"a.example.com", "b.example.com", "c.example.com"}
      ∧ collectResults exampleTasks =
        [("subfinder", {"a.example.com", "b.example.com"}),
         ("crtsh", {"b.example.com", "c.example.com"})]) := by
  refine ⟨?_, ?_, ?_, ?_, ?_⟩
  · intro rs
    unfold combinedResult
    rw [foldr_union_filter]
  · intro rs rs' hperm
    unfold combinedResult
    rw [foldr_union_filter, foldr_union_filter]
    exact foldr_union_perm _ _ (hperm.map Prod.snd)
  · intro n s rs
    unfold combinedResult
    rw [foldr_union_filter, foldr_union_filter]
    simp only [List.map_cons, List.foldr_cons]
    rw [← Finset.union_assoc, Finset.union_self]
  · decide
  · decide

/-- C1 witness: the permutation clause at a concrete pair of runs. -/
theorem c1_combined_union_comm_idem_witness :
    combinedResult [("srcA", ({"a.example.com"} : Finset String)),
                    ("srcB", {"b.example.com"})]
      = combinedResult [("srcB", ({"b.example.com"} : Finset String)),
                        ("srcA", {"a.example.com"})] :=
  c1_combined_union_comm_idem.2.1 _ _
    (List.Perm.swap ("srcB", ({"b.example.com"} : Finset String))
      ("srcA", {"a.example.com"}) [])

/-- C2: every dispatched collector yields exactly one per-source entry under
its own name; a collector that raised is recorded as the empty set; a
successful collector's set is recorded unchanged; and the run always completes
with an outcome carrying the full per-source breakdown — the saved results
plus combined set, or the no-subdomains report — never an abort. -/
theorem c2_collector_failure_not_fatal
    (tasks : List (String × Except String (Finset String))) :
    (collectResults tasks).map Prod.fst = tasks.map Prod.fst
    ∧ (∀ n e, (n, Except.error e) ∈ tasks →
        (n, (∅ : Finset String)) ∈ collectResults tasks)
    ∧ (∀ n s, (n, Except.ok s) ∈ tasks → (n, s) ∈ collectResults tasks)
    ∧ (orchestrate tasks =
        RunOutcome.saved (collectResults tasks) (combinedResult (collectResults tasks))
       ∨ orchestrate tasks = RunOutcome.noneFound (collectResults tasks)) := by
  refine ⟨?_, ?_, ?_, ?_⟩
  · simp [collectResults, List.map_map]
  · intro n e h
    simp only [collectResults, List.mem_map]
    exact ⟨(n, Except.error e), h, rfl⟩
  · intro n s h
    simp only [collectResults, List.mem_map]
    exact ⟨(n, Except.ok s), h, rfl⟩
  · unfold orchestrate
    by_cases h : anyNonempty (collectResults tasks) = true
    · left
      simp [h]
    · right
      simp [h]

/-- Concrete batch with one raising collector, for the C2 witness. -/
def c2Tasks : List (String × Except String (Finset String)) :=
  [("subfinder", Except.ok {"a.example.com"}),
   ("crtsh", Except.error "connection reset")]

/-- C2 witness: the raising crt.sh collector is recorded as the empty set and
the batch still reaches a saved outcome. -/
theorem c2_collector_failure_not_fatal_witness :
    ("crtsh", (∅ : Finset String)) ∈ collectResults c2Tasks :=
  (c2_collector_failure_not_fatal c2Tasks).2.1 ("crtsh") ("connection reset")
    (List.mem_cons_of_mem _ (List.mem_cons_self _ _))

/-! ## Local-binary collector (`subdomain.py`, `read_file_with_encoding`
lines 208-223 and `run_subfinder` lines 249-309)

The output file's raw bytes are abstracted by a decoding oracle: for each
encoding it yields either the decoded lines or `none` (a `UnicodeDecodeError`
or any other read error — in both cases the source falls through to the next
encoding of the list). -/

inductive Enc where
  | utf8
  | gbk
  | utf8sig
deriving DecidableEq

/-- `encodings = ['utf-8', 'gbk', 'utf-8-sig']` (line 214). -/
def ENCODINGS : List Enc := [Enc.utf8, Enc.gbk, Enc.utf8sig]

/-- Python's `str.strip()`: drop leading and trailing whitespace. -/
def stripStr (s : String) : String :=
  String.mk (((s.data.dropWhile Char.isWhitespace).reverse.dropWhile
    Char.isWhitespace).reverse)

/-- `set(line.strip() for line in f if line.strip())` (line 218). -/
def stripLines (ls : List String) : Finset String :=
  ((ls.map stripStr).filter (fun s => !s.isEmpty)).toFinset

/-- The encoding loop of `read_file_with_encoding` (lines 215-222). -/
def tryEncodings (decode : Enc → Option (List String)) : List Enc → Finset String
  | [] => ∅
  | e :: es =>
    match decode e with
    | some ls => stripLines ls
    | none => tryEncodings decode es

/-- `read_file_with_encoding` (lines 208-223): try each encoding in order and
return the stripped nonempty lines of the first successful decode, or the
empty set if every attempt fails. -/
def read_file_with_encoding (decode : Enc → Option (List String)) : Finset String :=
  tryEncodings decode ENCODINGS

/-- Environment of one `run_subfinder` call on a validated single-domain
target: whether `subfinder.exe` exists, whether the subprocess exits cleanly
(`check=True` raises otherwise), whether the output file appears, and the
decoding oracle for that output file. -/
structure SubfinderEnv where
  binaryExists : Bool
  processOk : Bool
  outputExists : Bool
  decode : Enc → Option (List String)

/-- `run_subfinder` (lines 249-309): a missing binary, a raising subprocess,
or a missing output file each yield the empty set; otherwise the output file
is read back with the encoding fallback. -/
def run_subfinder (env : SubfinderEnv) : Finset String :=
  if !env.binaryExists then ∅
  else if !env.processOk then ∅
  else if env.outputExists then read_file_with_encoding env.decode
  else ∅

theorem mem_stripLines {x : String} {ls : List String} (hx : x ∈ stripLines ls) :
    ∃ y ∈ ls, x = stripStr y ∧ x ≠ ("") := by
  simp only [stripLines, List.mem_toFinset, List.mem_filter, List.mem_map] at hx
  obtain ⟨⟨y, hy, rfl⟩, hne⟩ := hx
  refine ⟨y, hy, rfl, ?_⟩
  intro h0
  rw [h0] at hne
  exact absurd hne (by decide)

/-- Decoding oracle for the C9 counterexample: UTF-8 decoding succeeds with
two lines, the second of which is not a hostname. -/
def c9Decode : Enc → Option (List String) :=
  fun e => match e with
    | Enc.utf8 => some ["good.example.com", "###bad###"]
    | Enc.gbk => none
    | Enc.utf8sig => none

/-- C9 counterexample: the set the local-binary collector returns contains a
line that fails `validate_domain` — the lines read back from the output file
are not validated. -/
theorem c9_unvalidated_line_returned :
    ("###bad###") ∈ run_subfinder ⟨true, true, true, c9Decode⟩
      ∧ validate_domain ("###bad###") = false := by
  constructor
  · decide
  · decide

/-- C9 (amended): the local-binary collector reads the enumeration output file
trying UTF-8 first, then GBK, then UTF-8 with BOM, and returns the set of all
stripped nonempty lines of the first successful decoding, with no hostname
validation applied; every returned element is the strip of some line of a
successfully decoded attempt. -/
theorem c9_encoding_fallback (decode : Enc → Option (List String)) (ls : List String) :
    (decode Enc.utf8 = some ls → read_file_with_encoding decode = stripLines ls)
    ∧ (decode Enc.utf8 = none → decode Enc.gbk = some ls →
        read_file_with_encoding decode = stripLines ls)
    ∧ (decode Enc.utf8 = none → decode Enc.gbk = none →
        decode Enc.utf8sig = some ls → read_file_with_encoding decode = stripLines ls)
    ∧ ((∀ e, decode e = none) → read_file_with_encoding decode = ∅)
    ∧ (∀ x ∈ read_file_with_encoding decode,
        ∃ e l0, decode e = some l0 ∧ ∃ y ∈ l0, x = stripStr y ∧ x ≠ ("")) := by
  refine ⟨?_, ?_, ?_, ?_, ?_⟩
  · intro h
    simp [read_file_with_encoding, ENCODINGS, tryEncodings, h]
  · intro h1 h2
    simp [read_file_with_encoding, ENCODINGS, tryEncodings, h1, h2]
  · intro h1 h2 h3
    simp [read_file_with_encoding, ENCODINGS, tryEncodings, h1, h2, h3]
  · intro h
    simp [read_file_with_encoding, ENCODINGS, tryEncodings,
      h Enc.utf8, h Enc.gbk, h Enc.utf8sig]
  · intro x hx
    unfold read_file_with_encoding ENCODINGS at hx
    rcases h1 : decode Enc.utf8 with _ | l1
    · rcases h2 : decode Enc.gbk with _ | l2
      · rcases h3 : decode Enc.utf8sig with _ | l3
        · simp [tryEncodings, h1, h2, h3] at hx
        · rw [show tryEncodings decode [Enc.utf8, Enc.gbk, Enc.utf8sig]
              = stripLines l3 from by simp [tryEncodings, h1, h2, h3]] at hx
          exact ⟨Enc.utf8sig, l3, h3, mem_stripLines hx⟩
      · rw [show tryEncodings decode [Enc.utf8, Enc.gbk, Enc.utf8sig]
            = stripLines l2 from by simp [tryEncodings, h1, h2]] at hx
        exact ⟨Enc.gbk, l2, h2, mem_stripLines hx⟩
    · rw [show tryEncodings decode [Enc.utf8, Enc.gbk, Enc.utf8sig]
          = stripLines l1 from by simp [tryEncodings, h1]] at hx
      exact ⟨Enc.utf8, l1, h1, mem_stripLines hx⟩

/-- Decoding oracle where UTF-8 fails and GBK succeeds, for the C9 witness. -/
def c9FallbackDecode : Enc → Option (List String) :=
  fun e => match e with
    | Enc.utf8 => none
    | Enc.gbk => some ["x.example.com"]
    | Enc.utf8sig => none

/-- C9 witness: the GBK fallback clause applied at a concrete oracle. -/
theorem c9_encoding_fallback_witness :
    read_file_with_encoding c9FallbackDecode = stripLines ["x.example.com"] :=
  (c9_encoding_fallback c9FallbackDecode ["x.example.com"]).2.1 rfl rfl

/-! ## Rate-limited ICP client (`icp_query.py`, `icp_query`, lines 29-113)

The retry loop (lines 51-84) is embedded with an oracle `resp : Nat →
AttemptOutcome` giving the outcome of the `k`-th HTTP attempt.  Note that the
`finally` block (lines 79-84) runs on *every* exit of the `try`, including the
`break` taken on status 200, so the cursor advance and — while attempts
remain — the 1-second backoff happen regardless of the attempt's outcome. -/

/-- `API_ENDPOINTS` (`icp_query.py` lines 16-21). -/
def API_ENDPOINTS : List String :=
  ["https://cn.apihz.cn/api/wangzhan/icp.php",
   "http://101.35.2.25/api/wangzhan/icp.php",
   "http://124.222.204.22/api/wangzhan/icp.php",
   "http://124.220.49.230/api/wangzhan/icp.php"]

/-- `max_retries = 3` (line 52). -/
def maxRetries : Nat := 3

/-- The `finally` cursor advance (line 81):
`current_endpoint_index = (current_endpoint_index + 1) % len(API_ENDPOINTS)`. -/
def advanceCursor (c : Nat) : Nat := (c + 1) % API_ENDPOINTS.length

/-- Outcome of one HTTP attempt: a raised transport/timeout error, or a
response carrying a status code. -/
inductive AttemptOutcome where
  | exc
  | status (code : Nat)
deriving DecidableEq

/-- Observable trace of the retry loop: endpoint indices used in order,
backoff sleeps performed (seconds), the rotation cursor after the loop, and
the `response` variable after the loop (its status code, if any response was
ever assigned). -/
structure IcpTrace where
  used : List Nat
  sleeps : List Nat
  finalCursor : Nat
  lastResponse : Option Nat
deriving DecidableEq

/-- The retry loop of `icp_query` (lines 51-84).  `remaining` counts
`max_retries - retry_count`, `k` is the attempt number (used by the oracle),
`lastResp` is the current value of the `response` variable — unchanged by a
raising attempt, overwritten by any received response. -/
def icpAttempts (resp : Nat → AttemptOutcome) :
    Nat → Nat → Nat → Option Nat → IcpTrace
  | 0, cursor, _, lastResp => ⟨[], [], cursor, lastResp⟩
  | r + 1, cursor, k, lastResp =>
    let cursor2 := advanceCursor cursor
    let slept : List Nat := if k + 1 < maxRetries then [1] else []
    match resp k with
    | AttemptOutcome.exc =>
      let t := icpAttempts resp r cursor2 (k + 1) lastResp
      ⟨cursor :: t.used, slept ++ t.sleeps, t.finalCursor, t.lastResponse⟩
    | AttemptOutcome.status s =>
      if s = 200 then ⟨[cursor], slept, cursor2, some 200⟩
      else
        let t := icpAttempts resp r cursor2 (k + 1) (some s)
        ⟨cursor :: t.used, slept ++ t.sleeps, t.finalCursor, t.lastResponse⟩

/-- Result of `icp_query`: the parsed success payload, or the fixed failure
dictionary `{"code": 500, "msg": "所有端点请求失败"}` of line 89. -/
inductive ICPResult where
  | success
  | failure (code : Nat) (msg : String)
deriving DecidableEq

/-- `icp_query` (lines 29-113) from the retry loop on: run the attempts, then
return the failure dictionary unless the final `response` has status 200. -/
def icp_query (resp : Nat → AttemptOutcome) (cursor0 : Nat) : IcpTrace × ICPResult :=
  let t := icpAttempts resp maxRetries cursor0 0 none
  (t, match t.lastResponse with
      | some s => if s = 200 then ICPResult.success
                  else ICPResult.failure 500 ("所有端点请求失败")
      | none => ICPResult.failure 500 ("所有端点请求失败"))

/-- The cursors of a run of consecutive attempts: each attempt uses the
current cursor, the next starts from the advanced cursor. -/
def cursorSeq : Nat → Nat → List Nat
  | 0, _ => []
  | n + 1, c => c :: cursorSeq n (advanceCursor c)

/-- The `response` variable after one non-breaking attempt (line 69): kept on
a raised exception, overwritten by a received response. -/
def respUpdate : AttemptOutcome → Option Nat → Option Nat
  | AttemptOutcome.exc, l => l
  | AttemptOutcome.status s, _ => some s

theorem icpAttempts_succ_break (resp : Nat → AttemptOutcome) (r c k : Nat)
    (l : Option Nat) (h : resp k = AttemptOutcome.status 200) :
    icpAttempts resp (r + 1) c k l =
      ⟨[c], if k + 1 < maxRetries then [1] else [], advanceCursor c, some 200⟩ := by
  simp [icpAttempts, h]

theorem icpAttempts_succ_fail (resp : Nat → AttemptOutcome) (r c k : Nat)
    (l : Option Nat) (h : resp k ≠ AttemptOutcome.status 200) :
    icpAttempts resp (r + 1) c k l =
      ⟨c :: (icpAttempts resp r (advanceCursor c) (k + 1) (respUpdate (resp k) l)).used,
       (if k + 1 < maxRetries then [1] else [])
         ++ (icpAttempts resp r (advanceCursor c) (k + 1) (respUpdate (resp k) l)).sleeps,
       (icpAttempts resp r (advanceCursor c) (k + 1) (respUpdate (resp k) l)).finalCursor,
       (icpAttempts resp r (advanceCursor c) (k + 1) (respUpdate (resp k) l)).lastResponse⟩ := by
  rcases e : resp k with _ | s
  · simp [icpAttempts, e, respUpdate]
  · have hs : ¬ s = 200 := fun h2 => h (by rw [e, h2])
    simp [icpAttempts, e, respUpdate, hs]

theorem icpAttempts_used_cursorSeq (resp : Nat → AttemptOutcome) :
    ∀ (r k : Nat) (c : Nat) (l : Option Nat),
      (icpAttempts resp r c k l).used
          = cursorSeq (icpAttempts resp r c k l).used.length c
        ∧ (icpAttempts resp r c k l).finalCursor
          = advanceCursor^[(icpAttempts resp r c k l).used.length] c := by
  intro r
  induction r with
  | zero => intro k c l; exact ⟨rfl, rfl⟩
  | succ r ih =>
    intro k c l
    by_cases h : resp k = AttemptOutcome.status 200
    · rw [icpAttempts_succ_break resp r c k l h]
      exact ⟨rfl, rfl⟩
    · rw [icpAttempts_succ_fail resp r c k l h]
      obtain ⟨ih1, ih2⟩ := ih (k + 1) (advanceCursor c) (respUpdate (resp k) l)
      constructor
      · simp only [List.length_cons, cursorSeq]
        rw [← ih1]
      · simp only [List.length_cons, Function.iterate_succ_apply]
        rw [← ih2]

theorem icp_shape (resp : Nat → AttemptOutcome) (c : Nat) (l : Option Nat) :
    (resp 0 = AttemptOutcome.status 200 →
      icpAttempts resp 3 c 0 l = ⟨[c], [1], advanceCursor c, some 200⟩)
    ∧ (resp 0 ≠ AttemptOutcome.status 200 → resp 1 = AttemptOutcome.status 200 →
      icpAttempts resp 3 c 0 l =
        ⟨[c, advanceCursor c], [1, 1], advanceCursor (advanceCursor c), some 200⟩)
    ∧ (resp 0 ≠ AttemptOutcome.status 200 → resp 1 ≠ AttemptOutcome.status 200 →
      (icpAttempts resp 3 c 0 l).used
          = [c, advanceCursor c, advanceCursor (advanceCursor c)]
        ∧ (icpAttempts resp 3 c 0 l).sleeps = [1, 1]
        ∧ (icpAttempts resp 3 c 0 l).finalCursor
          = advanceCursor (advanceCursor (advanceCursor c))) := by
  refine ⟨?_, ?_, ?_⟩
  · intro h0
    rw [show (3 : Nat) = 2 + 1 from rfl, icpAttempts_succ_break resp 2 c 0 l h0]
    simp [maxRetries]
  · intro h0 h1
    rw [show (3 : Nat) = 2 + 1 from rfl, icpAttempts_succ_fail resp 2 c 0 l h0,
      show (2 : Nat) = 1 + 1 from rfl,
      icpAttempts_succ_break resp 1 (advanceCursor c) 1 (respUpdate (resp 0) l) h1]
    simp [maxRetries]
  · intro h0 h1
    rw [show (3 : Nat) = 2 + 1 from rfl, icpAttempts_succ_fail resp 2 c 0 l h0,
      show (2 : Nat) = 1 + 1 from rfl,
      icpAttempts_succ_fail resp 1 (advanceCursor c) 1 (respUpdate (resp 0) l) h1]
    by_cases h2 : resp 2 = AttemptOutcome.status 200
    · rw [show (1 : Nat) = 0 + 1 from rfl,
        icpAttempts_succ_break resp 0 (advanceCursor (advanceCursor c)) 2
          (respUpdate (resp 1) (respUpdate (resp 0) l)) h2]
      simp [maxRetries]
    · rw [show (1 : Nat) = 0 + 1 from rfl,
        icpAttempts_succ_fail resp 0 (advanceCursor (advanceCursor c)) 2
          (respUpdate (resp 1) (respUpdate (resp 0) l)) h2]
      simp [maxRetries, icpAttempts]

theorem icpAttempts_take_one (resp : Nat → AttemptOutcome) (r c k : Nat)
    (l : Option Nat) :
    (icpAttempts resp (r + 1) c k l).used.take 1 = [c] := by
  by_cases h : resp k = AttemptOutcome.status 200
  · rw [icpAttempts_succ_break resp r c k l h]
    rfl
  · rw [icpAttempts_succ_fail resp r c k l h]
    rfl

theorem icpAttempts_len_le (resp : Nat → AttemptOutcome) :
    ∀ (r k : Nat) (c : Nat) (l : Option Nat),
      (icpAttempts resp r c k l).used.length ≤ r := by
  intro r
  induction r with
  | zero => intro k c l; exact Nat.le_refl 0
  | succ r ih =>
    intro k c l
    by_cases h : resp k = AttemptOutcome.status 200
    · rw [icpAttempts_succ_break resp r c k l h]
      simp
    · rw [icpAttempts_succ_fail resp r c k l h]
      simpa using ih (k + 1) (advanceCursor c) (respUpdate (resp k) l)

theorem icpAttempts_lastResponse_ne (resp : Nat → AttemptOutcome) :
    ∀ (r k : Nat) (c : Nat) (l : Option Nat),
      (∀ i, k ≤ i → i < k + r → resp i ≠ AttemptOutcome.status 200) →
      l ≠ some 200 → (icpAttempts resp r c k l).lastResponse ≠ some 200 := by
  intro r
  induction r with
  | zero => intro k c l _ hl; exact hl
  | succ r ih =>
    intro k c l hall hl
    have hk : resp k ≠ AttemptOutcome.status 200 :=
      hall k (Nat.le_refl k) (by omega)
    rw [icpAttempts_succ_fail resp r c k l hk]
    refine ih (k + 1) (advanceCursor c) (respUpdate (resp k) l) ?_ ?_
    · intro i h1 h2
      exact hall i (by omega) (by omega)
    · rcases e : resp k with _ | s
      · exact hl
      · have hs : ¬ s = 200 := fun h2 => hk (by rw [e, h2])
        simp [respUpdate, hs]

/-- C4: every attempt of the retry loop uses the endpoint at the current
rotation cursor and hands the by-one-advanced (mod N) cursor to the next
attempt, regardless of each attempt's outcome; consequently a failing call's
three attempts together with the first attempt of the next call — four
consecutive attempts for the four configured endpoints — use every endpoint
exactly once. -/
theorem c4_endpoint_rotation (resp resp2 : Nat → AttemptOutcome) (c0 : Nat)
    (hc : c0 < API_ENDPOINTS.length) :
    ((icpAttempts resp maxRetries c0 0 none).used
        = cursorSeq (icpAttempts resp maxRetries c0 0 none).used.length c0
      ∧ (icpAttempts resp maxRetries c0 0 none).finalCursor
        = advanceCursor^[(icpAttempts resp maxRetries c0 0 none).used.length] c0)
    ∧ ((∀ i, resp i ≠ AttemptOutcome.status 200) →
        ((icpAttempts resp maxRetries c0 0 none).used ++
          (icpAttempts resp2 maxRetries
            (icpAttempts resp maxRetries c0 0 none).finalCursor 0 none).used.take 1).Perm
          (List.range API_ENDPOINTS.length)) := by
  constructor
  · exact icpAttempts_used_cursorSeq resp maxRetries 0 c0 none
  · intro hall
    obtain ⟨hused, _, hfinal⟩ := (icp_shape resp c0 none).2.2 (hall 0) (hall 1)
    rw [show maxRetries = 3 from rfl, hused, hfinal,
      icpAttempts_take_one resp2 2 (advanceCursor (advanceCursor (advanceCursor c0))) 0 none]
    have h4 : c0 < 4 := by simpa [API_ENDPOINTS] using hc
    interval_cases c0 <;> decide

/-- C4 witness: a run whose attempts all raise, started at cursor 0, followed
by the first attempt of the next call, uses each of the four endpoints exactly
once. -/
theorem c4_endpoint_rotation_witness :
    ((icpAttempts (fun _ => AttemptOutcome.exc) maxRetries 0 0 none).used ++
      (icpAttempts (fun _ => AttemptOutcome.exc) maxRetries
        (icpAttempts (fun _ => AttemptOutcome.exc) maxRetries 0 0 none).finalCursor
        0 none).used.take 1).Perm
      (List.range API_ENDPOINTS.length) :=
  (c4_endpoint_rotation (fun _ => AttemptOutcome.exc) (fun _ => AttemptOutcome.exc) 0
    (by decide)).2 (fun i => by decide)

/-- C5 counterexample: with every attempt answering 429, and alternatively
with every attempt answering 503, exhausting the three attempts returns the
same fixed `{"code": 500, "msg": "所有端点请求失败"}` dictionary — the
terminal failure value does not carry the last observed status (it is only
logged). -/
theorem c5_fixed_failure_result :
    (icp_query (fun _ => AttemptOutcome.status 429) 0).2
        = ICPResult.failure 500 ("所有端点请求失败")
      ∧ (icp_query (fun _ => AttemptOutcome.status 429) 0).2
        = (icp_query (fun _ => AttemptOutcome.status 503) 0).2 := by
  constructor
  · decide
  · decide

/-- C5 (amended): the retry loop makes at most 3 attempts; each attempt uses
the endpoint at the current cursor and the next attempt the next endpoint in
rotation; a fixed 1-second backoff is slept between attempts (`sleeps` is one
1-second entry per attempt except the last possible one); and when a transport
error, timeout, or non-200 status exhausts all three attempts, the call
returns the fixed failure dictionary `{"code": 500, "msg": "所有端点请求失败"}`
— the last observed status appears only in the log — rather than raising. -/
theorem c5_retry_policy (resp : Nat → AttemptOutcome) (c0 : Nat) :
    (icpAttempts resp maxRetries c0 0 none).used.length ≤ 3
    ∧ (icpAttempts resp maxRetries c0 0 none).sleeps =
        List.replicate (min (icpAttempts resp maxRetries c0 0 none).used.length 2) 1
    ∧ (icpAttempts resp maxRetries c0 0 none).used =
        cursorSeq (icpAttempts resp maxRetries c0 0 none).used.length c0
    ∧ (resp 0 ≠ AttemptOutcome.status 200 → resp 1 ≠ AttemptOutcome.status 200 →
        resp 2 ≠ AttemptOutcome.status 200 →
        (icpAttempts resp maxRetries c0 0 none).used.length = 3
        ∧ (icp_query resp c0).2 = ICPResult.failure 500 ("所有端点请求失败")) := by
  refine ⟨icpAttempts_len_le resp maxRetries 0 c0 none, ?_,
    (icpAttempts_used_cursorSeq resp maxRetries 0 c0 none).1, ?_⟩
  · by_cases h0 : resp 0 = AttemptOutcome.status 200
    · rw [show maxRetries = 3 from rfl, (icp_shape resp c0 none).1 h0]
      rfl
    · by_cases h1 : resp 1 = AttemptOutcome.status 200
      · rw [show maxRetries = 3 from rfl, (icp_shape resp c0 none).2.1 h0 h1]
        rfl
      · obtain ⟨hused, hsleeps, _⟩ := (icp_shape resp c0 none).2.2 h0 h1
        rw [show maxRetries = 3 from rfl, hused, hsleeps]
        rfl
  · intro h0 h1 h2
    obtain ⟨hused, _, _⟩ := (icp_shape resp c0 none).2.2 h0 h1
    constructor
    · rw [show maxRetries = 3 from rfl, hused]
      rfl
    · have hall : ∀ i, 0 ≤ i → i < 0 + 3 → resp i ≠ AttemptOutcome.status 200 := by
        intro i _ hi
        interval_cases i
        · exact h0
        · exact h1
        · exact h2
      have hlast := icpAttempts_lastResponse_ne resp 3 0 c0 none hall (by simp)
      have hlast2 : (icpAttempts resp maxRetries c0 0 none).lastResponse ≠ some 200 :=
        hlast
      unfold icp_query
      rcases e : (icpAttempts resp maxRetries c0 0 none).lastResponse with _ | s
      · simp [e]
      · have hs : ¬ s = 200 := fun h => hlast2 (by rw [e, h])
        simp [e, hs]

/-- C5 witness: the exhaustion clause applied at the all-429 oracle started
at cursor 0. -/
theorem c5_retry_policy_witness :
    (icpAttempts (fun _ => AttemptOutcome.status 429) maxRetries 0 0 none).used.length = 3
      ∧ (icp_query (fun _ => AttemptOutcome.status 429) 0).2
        = ICPResult.failure 500 ("所有端点请求失败") :=
  (c5_retry_policy (fun _ => AttemptOutcome.status 429) 0).2.2.2
    (by decide) (by decide) (by decide)

/-! ## Request pacing (`icp_query.py`, lines 10-13 and 29-47)

`REQUEST_INTERVAL = 1.5 / RATE_LIMIT` with `RATE_LIMIT = 40`.  Time is
modeled over `ℚ`.  The elapsed-time check appears twice in the source: once
inside the `try` block (lines 38-40) and once, textually duplicated, after
it (lines 46-47); both are executed on the normal path, each sleeping the
same remaining delta. -/

/-- `RATE_LIMIT = 40` (line 12). -/
def RATE_LIMIT : ℚ := 40

/-- `REQUEST_INTERVAL = 1.5 / RATE_LIMIT` (line 13). -/
def REQUEST_INTERVAL : ℚ := 1.5 / RATE_LIMIT

/-- The pacing prelude of `icp_query` (lines 36-47): the sleeps performed, in
order, for a call finding `elapsed` seconds since the provider's last
request. -/
def pacingSleeps (elapsed : ℚ) : List ℚ :=
  (if elapsed < REQUEST_INTERVAL then [REQUEST_INTERVAL - elapsed] else []) ++
  (if elapsed < REQUEST_INTERVAL then [REQUEST_INTERVAL - elapsed] else [])

/-- C7 (code bug, evaluated at the failing input `elapsed = 0`): the duplicated
check of lines 46-47 makes the caller sleep the remaining delta twice, for a
total suspension of `2 * REQUEST_INTERVAL` instead of the single remaining
delta the claim describes; the observable guarantee that the next request is
at least `REQUEST_INTERVAL` after the previous one still holds. -/
theorem c7_pacing_double_sleep :
    pacingSleeps 0 = [REQUEST_INTERVAL, REQUEST_INTERVAL]
    ∧ (pacingSleeps 0).sum = 2 * REQUEST_INTERVAL
    ∧ 2 * REQUEST_INTERVAL ≠ REQUEST_INTERVAL
    ∧ (∀ e : ℚ, REQUEST_INTERVAL ≤ max e 0 + (pacingSleeps e).sum) := by
  have hpos : (0 : ℚ) < REQUEST_INTERVAL := by
    norm_num [REQUEST_INTERVAL, RATE_LIMIT]
  refine ⟨?_, ?_, ?_, ?_⟩
  · simp [pacingSleeps, hpos]
  · simp [pacingSleeps, hpos]
    ring
  · intro h
    rw [two_mul] at h
    have := add_right_cancel (a := REQUEST_INTERVAL) (b := REQUEST_INTERVAL) (c := 0)
    nlinarith [hpos]
  · intro e
    by_cases he : e < REQUEST_INTERVAL
    · simp only [pacingSleeps, if_pos he, List.cons_append, List.nil_append,
        List.sum_cons, List.sum_nil]
      rcases le_total e 0 with h | h
      · rw [max_eq_right h]
        linarith
      · rw [max_eq_left h]
        linarith
    · push_neg at he
      simp only [pacingSleeps, if_neg (not_lt.mpr he), List.append_nil,
        List.sum_nil]
      have : e ≤ max e 0 := le_max_left e 0
      linarith

/-! ## Key-authenticated and certificate-log collectors (`subdomain.py`,
lines 376-625)

API keys and provider responses are oracle inputs.  A key is usable exactly
when Python finds it truthy: present and nonempty. -/

/-- Python truthiness of an optional string (`if not api_key: ...`). -/
def optTruthy : Option String → Bool
  | some s => !s.isEmpty
  | none => false

/-- The per-provider API keys read by `run` (lines 75-79). -/
structure ApiKeys where
  securitytrails : Option String
  zoomeye : Option String
  shodan : Option String

/-- The dispatch list built by `run`'s one-key path (lines 130-149): subfinder
and crt.sh always; the API-keyed collectors only when their key is truthy. -/
def buildTasks (keys : ApiKeys) : List String :=
  ["subfinder", "crtsh"]
    ++ (if optTruthy keys.securitytrails then ["securitytrails"] else [])
    ++ (if optTruthy keys.zoomeye then ["zoomeye"] else [])
    ++ (if optTruthy keys.shodan then ["shodan"] else [])

/-- `run_securitytrails` (lines 579-625): `resp` is the `subdomains` list of a
successful JSON response, `none` covering request failures and HTTP errors.
The boolean records whether an HTTP request was issued: a missing key
short-circuits before any request. -/
def run_securitytrails (key : Option String) (resp : Option (List String))
    (domain : String) : Bool × Finset String :=
  if optTruthy key then
    (true, match resp with
      | none => ∅
      | some subs =>
        (subs.filterMap (fun sub =>
          if validate_domain (sub ++ "." ++ domain) then some (sub ++ "." ++ domain)
          else none)).toFinset)
  else (false, ∅)

/-- The record types iterated by `run_shodan` (line 440). -/
def SHODAN_RECORD_TYPES : List String := ["a", "aaaa", "cname", "mx", "ns", "txt"]

/-- `run_shodan` (lines 416-464): `resp` maps a record type to the optional
`subdomain` field of each of its records (`none` when the field is absent);
the whole response is `none` on request failure.  The boolean records whether
an HTTP request was issued. -/
def run_shodan (key : Option String) (resp : Option (String → List (Option String)))
    (domain : String) : Bool × Finset String :=
  if optTruthy key then
    (true, match resp with
      | none => ∅
      | some recs =>
        ((SHODAN_RECORD_TYPES.flatMap (fun rt => recs rt)).filterMap (fun f =>
          f.bind (fun sub =>
            if !sub.isEmpty then
              if validate_domain (sub ++ "." ++ domain) then
                some (sub ++ "." ++ domain)
              else none
            else none))).toFinset)
  else (false, ∅)

/-- Substring containment: Python's `domain in subdomain` (line 400). -/
def containsSub (needle hay : String) : Bool :=
  decide (needle.data <:+: hay.data)

/-- `run_crtsh` (lines 376-413): `resp` is the list of table rows (their cell
texts) parsed from the HTML, `none` on request failure.  A row with at least
5 cells contributes its fifth cell, stripped, when it contains the query
domain as a substring and validates. -/
def run_crtsh (resp : Option (List (List String))) (domain : String) : Finset String :=
  match resp with
  | none => ∅
  | some rows =>
    (rows.filterMap (fun cells =>
      if 5 ≤ cells.length then
        match cells.get? 4 with
        | some cell =>
          let sub := stripStr cell
          if containsSub domain sub && validate_domain sub then some sub else none
        | none => none
      else none)).toFinset

/-- One item of a ZoomEye `data` page (lines 539-548): it carries a `domain`
field, else a `url` field, else neither. -/
inductive ZItem where
  | domainItem (d : String)
  | urlItem (u : String)
  | otherItem

/-- Processing of one ZoomEye data item (lines 539-548): a validated `domain`
field is collected; a `url` field is collected when its host part (the third
`/`-separated component) ends with the query domain and validates. -/
def processZItem (domain : String) (acc : Finset String) : ZItem → Finset String
  | ZItem.domainItem d => if validate_domain d then insert d acc else acc
  | ZItem.urlItem u =>
    if u.startsWith ("http://") || u.startsWith ("https://") then
      match (u.splitOn ("/")).get? 2 with
      | some dp =>
        if dp.endsWith domain && validate_domain dp then insert dp acc else acc
      | none => acc
    else acc
  | ZItem.otherItem => acc

/-- Fold of `processZItem` over one page's `data` list. -/
def processZItems (domain : String) (items : List ZItem) (acc : Finset String) :
    Finset String :=
  items.foldl (processZItem domain) acc

/-- The pages-2-onward loop of `run_zoomeye` (lines 525-559): request pages in
order until the page count fixed by the first response is reached, stopping
early — but keeping the set gathered so far — on a failing page request.
Returns the pages requested and the accumulated set. -/
def zoomeyeAux (resp : Nat → Option (Nat × List ZItem)) (domain : String) :
    Nat → Nat → Finset String → List Nat × Finset String
  | 0, _, acc => ([], acc)
  | r + 1, page, acc =>
    match resp page with
    | none => ([page], acc)
    | some pr =>
      let acc2 := processZItems domain pr.2 acc
      let rest := zoomeyeAux resp domain r (page + 1) acc2
      (page :: rest.1, rest.2)

/-- `run_zoomeye` (lines 489-576): a missing or empty API key short-circuits
with the empty set before any request; otherwise page 1 is requested, the
total page count is computed as `(total + pagesize - 1) // pagesize` with
`pagesize = 100` from the first response, and the remaining pages are
requested in order.  Returns the pages requested and the collected set. -/
def run_zoomeye (key : Option String) (resp : Nat → Option (Nat × List ZItem))
    (domain : String) : List Nat × Finset String :=
  if optTruthy key then
    match resp 1 with
    | none => ([1], ∅)
    | some pr =>
      let totalPages := (pr.1 + 100 - 1) / 100
      let acc := processZItems domain pr.2 ∅
      if 1 < totalPages then
        let rest := zoomeyeAux resp domain (totalPages - 1) 2 acc
        (1 :: rest.1, rest.2)
      else ([1], acc)
  else ([], ∅)

theorem processZItem_acc (domain : String) (acc : Finset String) (it : ZItem) :
    processZItem domain acc it = acc ∪ processZItem domain ∅ it := by
  rcases it with d | u | _
  · simp only [processZItem]
    split
    · ext x
      simp only [Finset.mem_insert, Finset.mem_union]
      tauto
    · simp
  · simp only [processZItem]
    generalize (u.startsWith ("http://") || u.startsWith ("https://")) = b
    cases b
    · simp
    · generalize (u.splitOn ("/")).get? 2 = o
      rcases o with _ | dp
      · simp
      · by_cases hc : (dp.endsWith domain && validate_domain dp) = true
        · ext x
          simp only [hc, if_true, Finset.mem_insert, Finset.mem_union,
            Finset.not_mem_empty, or_false]
          tauto
        · ext x
          simp [hc]
  · simp [processZItem]

theorem processZItems_acc (domain : String) (items : List ZItem) :
    ∀ acc, processZItems domain items acc = acc ∪ processZItems domain items ∅ := by
  induction items with
  | nil =>
    intro acc
    simp [processZItems]
  | cons it items ih =>
    intro acc
    have h1 : processZItems domain (it :: items) acc
        = processZItems domain items (processZItem domain acc it) := rfl
    have h2 : processZItems domain (it :: items) ∅
        = processZItems domain items (processZItem domain ∅ it) := rfl
    rw [h1, h2, ih (processZItem domain acc it), ih (processZItem domain ∅ it),
      processZItem_acc domain acc it, Finset.union_assoc]

/-- Page oracle for the three-page C6 scenario: page 1 reports total 250. -/
def zPages3 (d1 d2 d3 : List ZItem) (t2 t3 : Nat) : Nat → Option (Nat × List ZItem) :=
  fun p =>
    if p = 1 then some (250, d1)
    else if p = 2 then some (t2, d2)
    else if p = 3 then some (t3, d3)
    else none

/-- Page oracle where every request after page 1 fails. -/
def zPagesFail (d1 : List ZItem) : Nat → Option (Nat × List ZItem) :=
  fun p => if p = 1 then some (250, d1) else none

/-- C6: when the first page reports `total = 250` at `pagesize = 100`, exactly
the three pages 1, 2, 3 are requested, in order (`ceil(250/100) = 3`), and the
returned set is the union of the subdomains extracted from all three pages;
when the second page's request fails, pagination stops after requesting pages
1 and 2, but the subdomains gathered from page 1 are still returned. -/
theorem c6_zoomeye_pagination (key : Option String) (hk : optTruthy key = true)
    (domain : String) (d1 d2 d3 : List ZItem) (t2 t3 : Nat) :
    run_zoomeye key (zPages3 d1 d2 d3 t2 t3) domain
      = ([1, 2, 3],
         processZItems domain d1 ∅ ∪ processZItems domain d2 ∅
           ∪ processZItems domain d3 ∅)
    ∧ run_zoomeye key (zPagesFail d1) domain = ([1, 2], processZItems domain d1 ∅) := by
  constructor
  · unfold run_zoomeye
    rw [hk]
    norm_num [zPages3, zoomeyeAux]
    rw [processZItems_acc domain d2 (processZItems domain d1 ∅),
      processZItems_acc domain d3 (processZItems domain d1 ∅ ∪ processZItems domain d2 ∅),
      Finset.union_assoc]
  · unfold run_zoomeye
    rw [hk]
    norm_num [zPagesFail, zoomeyeAux]

/-- C6 witness: the failing-page clause at a concrete key, domain, and page
content. -/
theorem c6_zoomeye_pagination_witness :
    run_zoomeye (some ("k")) (zPagesFail [ZItem.domainItem ("a.example.com")])
        ("example.com")
      = ([1, 2],
         processZItems ("example.com") [ZItem.domainItem ("a.example.com")] ∅) :=
  (c6_zoomeye_pagination (some ("k")) (by decide) ("example.com")
    [ZItem.domainItem ("a.example.com")] [] [] 0 0).2

/-- C8: subfinder and crt.sh are always in the dispatch list; an API-keyed
collector whose credential is absent (or empty) is excluded from dispatch
entirely; each keyed collector invoked without its key short-circuits — no
request issued, empty result — before any network call; and a run over the
dispatched list always completes with one per-source entry per dispatched
collector. -/
theorem c8_missing_key_excluded (keys : ApiKeys) :
    ("subfinder" ∈ buildTasks keys ∧ "crtsh" ∈ buildTasks keys)
    ∧ (optTruthy keys.securitytrails = false → "securitytrails" ∉ buildTasks keys)
    ∧ (optTruthy keys.zoomeye = false → "zoomeye" ∉ buildTasks keys)
    ∧ (optTruthy keys.shodan = false → "shodan" ∉ buildTasks keys)
    ∧ (∀ (key : Option String) (resp : Nat → Option (Nat × List ZItem))
        (domain : String), optTruthy key = false →
          run_zoomeye key resp domain = ([], ∅))
    ∧ (∀ (key : Option String) (resp : Option (List String)) (domain : String),
        optTruthy key = false → run_securitytrails key resp domain = (false, ∅))
    ∧ (∀ (key : Option String) (resp : Option (String → List (Option String)))
        (domain : String), optTruthy key = false →
          run_shodan key resp domain = (false, ∅))
    ∧ (∀ outcomes : String → Except String (Finset String),
        (collectResults ((buildTasks keys).map (fun n => (n, outcomes n)))).map Prod.fst
          = buildTasks keys) := by
  refine ⟨⟨?_, ?_⟩, ?_, ?_, ?_, ?_, ?_, ?_, ?_⟩
  · simp [buildTasks]
  · simp [buildTasks]
  · intro h
    rcases hz : optTruthy keys.zoomeye <;> rcases hs : optTruthy keys.shodan <;>
      simp [buildTasks, h, hz, hs]
  · intro h
    rcases ht : optTruthy keys.securitytrails <;> rcases hs : optTruthy keys.shodan <;>
      simp [buildTasks, h, ht, hs]
  · intro h
    rcases ht : optTruthy keys.securitytrails <;> rcases hz : optTruthy keys.zoomeye <;>
      simp [buildTasks, h, ht, hz]
  · intro key resp domain h
    simp [run_zoomeye, h]
  · intro key resp domain h
    simp [run_securitytrails, h]
  · intro key resp domain h
    simp [run_shodan, h]
  · intro outcomes
    simp only [collectResults, List.map_map]
    show List.map (fun n => n) (buildTasks keys) = buildTasks keys
    exact List.map_id' (buildTasks keys)

/-- C8 witness: with no ZoomEye key the zoomeye collector is not dispatched,
and invoked anyway it issues no request and returns the empty set. -/
theorem c8_missing_key_excluded_witness :
    ("zoomeye" ∉ buildTasks ⟨none, none, some ("k")⟩)
    ∧ run_zoomeye none (fun _ => none) ("example.com") = ([], ∅) :=
  ⟨(c8_missing_key_excluded ⟨none, none, some ("k")⟩).2.2.1 rfl,
   (c8_missing_key_excluded ⟨none, none, some ("k")⟩).2.2.2.2.1 none
     (fun _ => none) ("example.com") rfl⟩

/-- Concrete crt.sh response used to contrast C10: one row whose fifth cell
contains `example.com` as a substring without being a subdomain of it. -/
def crtRowsC10 : List (List String) :=
  [[("c1"), ("c2"), ("c3"), ("c4"), ("www.example.com.attacker.net")]]

/-- C10: every subdomain returned by the SecurityTrails or the Shodan
collector is literally `<prefix>.<domain>` — built by appending a dot and the
query domain to a provider-reported prefix — and passes `validate_domain`;
the certificate-log collector, in contrast, admits a name that merely
contains the domain as a substring, exhibited on a concrete crt.sh row whose
name is not of the form `<prefix>.<domain>`. -/
theorem c10_api_collectors_suffix_scoped (key : Option String)
    (resp : Option (List String)) (resp2 : Option (String → List (Option String)))
    (domain : String) :
    (∀ x ∈ (run_securitytrails key resp domain).2,
        (∃ p : String, x = p ++ "." ++ domain) ∧ validate_domain x = true)
    ∧ (∀ x ∈ (run_shodan key resp2 domain).2,
        (∃ p : String, x = p ++ "." ++ domain) ∧ validate_domain x = true)
    ∧ (("www.example.com.attacker.net")
          ∈ run_crtsh (some crtRowsC10) ("example.com")
      ∧ ¬ ∃ p : String,
          ("www.example.com.attacker.net") = p ++ "." ++ ("example.com")) := by
  refine ⟨?_, ?_, ?_, ?_⟩
  · intro x hx
    rcases hk : optTruthy key with _ | _
    · simp [run_securitytrails, hk] at hx
    · rcases resp with _ | subs
      · simp [run_securitytrails, hk] at hx
      · simp only [run_securitytrails, hk, if_true, List.mem_toFinset,
          List.mem_filterMap] at hx
        obtain ⟨sub, _, heq⟩ := hx
        by_cases hv : validate_domain (sub ++ "." ++ domain) = true
        · rw [if_pos hv] at heq
          obtain rfl : sub ++ "." ++ domain = x := by injection heq
          exact ⟨⟨sub, rfl⟩, hv⟩
        · rw [if_neg hv] at heq
          exact absurd heq (by simp)
  · intro x hx
    rcases hk : optTruthy key with _ | _
    · simp [run_shodan, hk] at hx
    · rcases resp2 with _ | recs
      · simp [run_shodan, hk] at hx
      · simp only [run_shodan, hk, if_true, List.mem_toFinset,
          List.mem_filterMap] at hx
        obtain ⟨f, _, heq⟩ := hx
        rcases f with _ | sub
        · exact absurd heq (by simp)
        · rw [Option.some_bind] at heq
          by_cases he : (!sub.isEmpty) = true
          · rw [if_pos he] at heq
            by_cases hv : validate_domain (sub ++ "." ++ domain) = true
            · rw [if_pos hv] at heq
              obtain rfl : sub ++ "." ++ domain = x := by injection heq
              exact ⟨⟨sub, rfl⟩, hv⟩
            · rw [if_neg hv] at heq
              exact absurd heq (by simp)
          · rw [if_neg he] at heq
            exact absurd heq (by simp)
  · decide
  · rintro ⟨p, hp⟩
    have hd : ("www.example.com.attacker.net").data
        = (p ++ ".").data ++ ("example.com").data := by
      rw [hp]
      rfl
    have hsuf : ("example.com").data <:+ ("www.example.com.attacker.net").data :=
      ⟨(p ++ ".").data, hd.symm⟩
    exact absurd hsuf (by decide)

/-- C10 witness: the SecurityTrails clause at a concrete response. -/
theorem c10_api_collectors_suffix_scoped_witness :
    (∃ p : String, ("www.example.com") = p ++ "." ++ ("example.com"))
      ∧ validate_domain ("www.example.com") = true :=
  (c10_api_collectors_suffix_scoped (some ("k")) (some [("www")])
    (some (fun _ => [])) ("example.com")).1 ("www.example.com") (by decide)
